import Mathlib

/-!
# Verification of the stend orchestration core

Shallow embedding of the stend repository's core components and proofs of the
specification's claims about them:

* a model of JSON values, Python's `json.dumps` serialization and `json.loads`
  parsing (used by `StendStore` in `src/stend/core/managers/store_manager.py`
  and by the event-dispatch pipeline in `src/stend/core/api_server.py`);
* the persistent key/value store `StendStore` (`put` / `get`);
* `AdbManager.run` (`src/stend/core/managers/adb.py`);
* the `IrisBridge` reconnection loop (`src/stend/core/bridge.py`);
* `SkillManager.load_skills` / `SkillManager.dispatch`
  (`src/stend/core/managers/skill_manager.py`) and the legacy
  `load_skills` of `src/stend/core/orchestrator.py`;
* the startup sequence `lifecycle_start` of `src/stend/core/api_server.py`
  and the legacy one of `src/stend/core/orchestrator.py`;
* the `WebhookManager` snapshot fan-out
  (`src/stend/core/managers/extra_managers.py`).

Strings that cross the Python/JSON boundary are modelled as `List Char`.
-/

namespace Stend

/-! ## JSON values

Model of the Python values that travel through `json.dumps` / `json.loads`:
`None`, booleans, integers, strings, lists and string-keyed dicts.  Python
floats are outside the model (none of the verified code paths require them).
-/

inductive Json where
  | null : Json
  | bool : Bool → Json
  | num : Int → Json
  | str : List Char → Json
  | arr : List Json → Json
  | obj : List (List Char × Json) → Json
deriving Inhabited

mutual

/-- Structural size used to bound the parser fuel. -/
def sizeJ : Json → Nat
  | .null => 1
  | .bool _ => 1
  | .num _ => 1
  | .str _ => 1
  | .arr xs => 1 + sizeLJ xs
  | .obj fs => 1 + sizeFJ fs

/-- Size of the tail of an array (elements after the first, or all elements
as seen by the item loop). -/
def sizeLJ : List Json → Nat
  | [] => 0
  | x :: xs => 1 + sizeJ x + sizeLJ xs

/-- Size of the members of an object as seen by the member loop. -/
def sizeFJ : List (List Char × Json) → Nat
  | [] => 0
  | kv :: fs => 2 + sizeJ kv.2 + sizeFJ fs

end

/-! ## Serialization: model of `json.dumps`

Python's `json.dumps` with its default separators `", "` and `": "`.
String escaping is modelled for the quote, backslash and the common control
characters; other characters are emitted verbatim. -/

/-- Escape one character the way `json.dumps` renders it inside a string. -/
def escChar (c : Char) : List Char :=
  if c = '"' then ['\\', '"']
  else if c = '\\' then ['\\', '\\']
  else if c = '\n' then ['\\', 'n']
  else if c = '\t' then ['\\', 't']
  else if c = '\r' then ['\\', 'r']
  else [c]

/-- Escape a whole string body. -/
def escapeStr : List Char → List Char
  | [] => []
  | c :: cs => escChar c ++ escapeStr cs

/-- One decimal digit as a character. -/
def digitChar : Nat → Char
  | 0 => '0' | 1 => '1' | 2 => '2' | 3 => '3' | 4 => '4'
  | 5 => '5' | 6 => '6' | 7 => '7' | 8 => '8' | _ => '9'

/-- Decimal rendering of a natural number (fuelled so that it evaluates by
`rfl`; the fuel `n + 1` always suffices). -/
def natToCharsAux : Nat → Nat → List Char
  | 0, _ => []
  | fuel + 1, n =>
    if n < 10 then [digitChar n]
    else natToCharsAux fuel (n / 10) ++ [digitChar (n % 10)]

def natToChars (n : Nat) : List Char := natToCharsAux (n + 1) n

/-- Decimal rendering of an integer, as Python prints `int`. -/
def intToChars : Int → List Char
  | .ofNat n => natToChars n
  | .negSucc m => '-' :: natToChars (m + 1)

mutual

/-- Model of `json.dumps` (default separators), producing the serialized
character list. -/
def dumpsL : Json → List Char
  | .null => ['n', 'u', 'l', 'l']
  | .num n => intToChars n
  | .bool true => ['t', 'r', 'u', 'e']
  | .str s => '"' :: (escapeStr s ++ ['"'])
  | .bool false => ['f', 'a', 'l', 's', 'e']
  | .arr [] => ['[', ']']
  | .arr (x :: xs) => '[' :: (dumpsL x ++ dumpsTail xs ++ [']'])
  | .obj [] => ['{', '}']
  | .obj (kv :: fs) => '{' :: (dumpsField kv ++ dumpsFTail fs ++ ['}'])

/-- The remaining array elements, each preceded by `", "`. -/
def dumpsTail : List Json → List Char
  | [] => []
  | x :: xs => ',' :: ' ' :: (dumpsL x ++ dumpsTail xs)

/-- One object member, rendered as `"key": value`. -/
def dumpsField : List Char × Json → List Char
  | (k, v) => '"' :: (escapeStr k ++ ['"', ':', ' '] ++ dumpsL v)

/-- The remaining object members, each preceded by `", "`. -/
def dumpsFTail : List (List Char × Json) → List Char
  | [] => []
  | kv :: fs => ',' :: ' ' :: (dumpsField kv ++ dumpsFTail fs)

end

/-! ## Parsing: model of `json.loads`

A fuelled recursive-descent parser over the character list.  The fuel only
bounds the nesting recursion; `loads` supplies ample fuel. -/

/-- JSON whitespace. -/
def isWsC (c : Char) : Bool :=
  c = ' ' || c = '\t' || c = '\n' || c = '\r'

/-- Drop leading whitespace. -/
def skipWs : List Char → List Char
  | [] => []
  | c :: cs => if isWsC c then skipWs cs else c :: cs

/-- Does the list start with the given character? -/
def headIs (c : Char) : List Char → Bool
  | [] => false
  | x :: _ => x = c

/-- Consume an exact sequence of characters. -/
def expectChars : List Char → List Char → Option (List Char)
  | [], cs => some cs
  | _ :: _, [] => none
  | p :: ps, c :: cs => if c = p then expectChars ps cs else none

/-- Decode one escape character after a backslash. -/
def unescChar (c : Char) : Option Char :=
  if c = '"' then some '"'
  else if c = '\\' then some '\\'
  else if c = '/' then some '/'
  else if c = 'n' then some '\n'
  else if c = 't' then some '\t'
  else if c = 'r' then some '\r'
  else none

/-- Parse a string body up to and including the closing quote, returning the
unescaped content and the remainder. -/
def parseStr : List Char → Option (List Char × List Char)
  | [] => none
  | c :: cs =>
    if c = '"' then some ([], cs)
    else if c = '\\' then
      match cs with
      | [] => none
      | d :: cs2 =>
        match unescChar d with
        | none => none
        | some u => (parseStr cs2).map (fun p => (u :: p.1, p.2))
    else (parseStr cs).map (fun p => (c :: p.1, p.2))

/-- Decimal digit test. -/
def isDigitC (c : Char) : Bool := 48 ≤ c.toNat && c.toNat ≤ 57

/-- Numeric value of a digit character. -/
def digVal (c : Char) : Nat := c.toNat - 48

/-- Value of a digit list, most significant first. -/
def digitsVal (ds : List Char) : Nat := ds.foldl (fun a c => a * 10 + digVal c) 0

/-- Parse a nonempty run of digits. -/
def parseDigits (cs : List Char) : Option (Nat × List Char) :=
  match cs.takeWhile isDigitC with
  | [] => none
  | ds => some (digitsVal ds, cs.dropWhile isDigitC)

mutual

/-- Parse one JSON value.  The fuel decreases on every recursion into a
nested value. -/
def parseVal : Nat → List Char → Option (Json × List Char)
  | 0, _ => none
  | fuel + 1, cs0 =>
    match skipWs cs0 with
    | [] => none
    | c :: cs =>
      if c = 'n' then (expectChars ['u', 'l', 'l'] cs).map (fun r => (Json.null, r))
      else if c = 't' then (expectChars ['r', 'u', 'e'] cs).map (fun r => (Json.bool true, r))
      else if c = 'f' then (expectChars ['a', 'l', 's', 'e'] cs).map (fun r => (Json.bool false, r))
      else if c = '"' then (parseStr cs).map (fun p => (Json.str p.1, p.2))
      else if c = '-' then (parseDigits cs).map (fun p => (Json.num (-(p.1 : Int)), p.2))
      else if isDigitC c then (parseDigits (c :: cs)).map (fun p => (Json.num (p.1 : Int), p.2))
      else if c = '[' then
        let cs1 := skipWs cs
        if headIs ']' cs1 then some (Json.arr [], cs1.tail)
        else
          match parseVal fuel cs1 with
          | none => none
          | some (v, r1) =>
            match parseItems fuel r1 with
            | none => none
            | some (vs, r2) => some (Json.arr (v :: vs), r2)
      else if c = '{' then
        let cs1 := skipWs cs
        if headIs '}' cs1 then some (Json.obj [], cs1.tail)
        else
          match parseMember fuel cs1 with
          | none => none
          | some (kv, r1) =>
            match parseMembers fuel r1 with
            | none => none
            | some (kvs, r2) => some (Json.obj (kv :: kvs), r2)
      else none

/-- Parse the remaining array items (after the first element): either the
closing bracket or a comma followed by a value. -/
def parseItems : Nat → List Char → Option (List Json × List Char)
  | fuel, cs =>
    let cs1 := skipWs cs
    if headIs ']' cs1 then some ([], cs1.tail)
    else
      match fuel with
      | 0 => none
      | fuel + 1 =>
        if headIs ',' cs1 then
          match parseVal fuel cs1.tail with
          | none => none
          | some (v, r1) =>
            match parseItems fuel r1 with
            | none => none
            | some (vs, r2) => some (v :: vs, r2)
        else none

/-- Parse one object member: `"key": value`. -/
def parseMember : Nat → List Char → Option ((List Char × Json) × List Char)
  | 0, _ => none
  | fuel + 1, cs =>
    let cs1 := skipWs cs
    if headIs '"' cs1 then
      match parseStr cs1.tail with
      | none => none
      | some (k, r1) =>
        let r2 := skipWs r1
        if headIs ':' r2 then
          match parseVal fuel r2.tail with
          | none => none
          | some (v, r3) => some ((k, v), r3)
        else none
    else none

/-- Parse the remaining object members (after the first): either the closing
brace or a comma followed by a member. -/
def parseMembers : Nat → List Char → Option (List (List Char × Json) × List Char)
  | fuel, cs =>
    let cs1 := skipWs cs
    if headIs '}' cs1 then some ([], cs1.tail)
    else
      match fuel with
      | 0 => none
      | fuel + 1 =>
        if headIs ',' cs1 then
          match parseMember fuel cs1.tail with
          | none => none
          | some (kv, r1) =>
            match parseMembers fuel r1 with
            | none => none
            | some (kvs, r2) => some (kv :: kvs, r2)
        else none

end

/-- Model of `json.loads`: parse the whole input; any leftover non-whitespace
is an error (`Extra data` in Python), returned as `none`. -/
def loads (s : List Char) : Option Json :=
  match parseVal (s.length + 1) s with
  | none => none
  | some (v, rest) => if skipWs rest = [] then some v else none

/-! ## Round-trip: `loads (dumpsL v) = some v` -/

/-- The list does not start with a character satisfying `p`. -/
def headNot (p : Char → Bool) : List Char → Prop
  | [] => True
  | c :: _ => p c = false

theorem expectChars_append (ps rest : List Char) :
    expectChars ps (ps ++ rest) = some rest := by
  induction ps with
  | nil => rfl
  | cons p ps ih => simp [expectChars, ih]

theorem skipWs_cons_not {c : Char} (h : isWsC c = false) (l : List Char) :
    skipWs (c :: l) = c :: l := by
  simp [skipWs, h]

theorem parseStr_escape (s rest : List Char) :
    parseStr (escapeStr s ++ '"' :: rest) = some (s, rest) := by
  induction s with
  | nil =>
    simp only [escapeStr, List.nil_append]
    rw [parseStr.eq_def]; simp
  | cons c cs ih =>
    by_cases h1 : c = '"'
    · subst h1
      simp only [escapeStr, escChar, if_pos rfl, List.cons_append, List.nil_append,
        List.append_assoc]
      rw [parseStr.eq_def]; simp [unescChar, ih]
    · by_cases h2 : c = '\\'
      · subst h2
        simp only [escapeStr, escChar, List.cons_append, List.nil_append, List.append_assoc]
        rw [parseStr.eq_def]; simp [unescChar, ih]
      · by_cases h3 : c = '\n'
        · subst h3
          simp only [escapeStr, escChar, List.cons_append, List.nil_append, List.append_assoc]
          rw [parseStr.eq_def]; simp [unescChar, ih]
        · by_cases h4 : c = '\t'
          · subst h4
            simp only [escapeStr, escChar, List.cons_append, List.nil_append, List.append_assoc]
            rw [parseStr.eq_def]; simp [unescChar, ih]
          · by_cases h5 : c = '\r'
            · subst h5
              simp only [escapeStr, escChar, List.cons_append, List.nil_append, List.append_assoc]
              rw [parseStr.eq_def]; simp [unescChar, ih]
            · simp only [escapeStr, escChar, h1, h2, h3, h4, h5, if_neg, ite_false,
                List.cons_append, List.nil_append, List.append_assoc]
              rw [parseStr.eq_def]; simp [h1, h2, ih]

theorem digVal_digitChar {n : Nat} (h : n < 10) : digVal (digitChar n) = n := by
  interval_cases n <;> decide

theorem isDigitC_digitChar {n : Nat} (h : n < 10) : isDigitC (digitChar n) = true := by
  interval_cases n <;> decide

/-- Properties of the fuelled decimal rendering: nonempty, all digits, and
its digit value (with accumulator) recovers the number. -/
theorem natToCharsAux_spec :
    ∀ fuel n, n < fuel →
      natToCharsAux fuel n ≠ [] ∧
      (∀ c ∈ natToCharsAux fuel n, isDigitC c = true) ∧
      (∀ a, (natToCharsAux fuel n).foldl (fun x c => x * 10 + digVal c) a =
        a * 10 ^ (natToCharsAux fuel n).length + n) := by
  intro fuel
  induction fuel with
  | zero => intro n hn; omega
  | succ fuel ih =>
    intro n hn
    by_cases h10 : n < 10
    · refine ⟨by simp [natToCharsAux, h10], ?_, ?_⟩
      · intro c hc
        simp [natToCharsAux, h10] at hc
        subst hc; exact isDigitC_digitChar h10
      · intro a
        simp [natToCharsAux, h10, digVal_digitChar h10]
    · have hlt : n / 10 < fuel := by
        have := Nat.div_lt_self (by omega : 0 < n) (by omega : 1 < 10)
        omega
      obtain ⟨hne, hdig, hval⟩ := ih (n / 10) hlt
      have hedef : natToCharsAux (fuel + 1) n =
          natToCharsAux fuel (n / 10) ++ [digitChar (n % 10)] := by
        simp [natToCharsAux, h10]
      refine ⟨by simp [hedef], ?_, ?_⟩
      · intro c hc
        rw [hedef] at hc
        simp at hc
        rcases hc with hc | hc
        · exact hdig c hc
        · subst hc; exact isDigitC_digitChar (Nat.mod_lt n (by omega))
      · intro a
        rw [hedef, List.foldl_append, hval a]
        simp [digVal_digitChar (Nat.mod_lt n (by omega : 0 < 10))]
        rw [pow_succ]
        have hmod := Nat.div_add_mod n 10
        ring_nf
        omega

theorem natToChars_ne_nil (n : Nat) : natToChars n ≠ [] :=
  (natToCharsAux_spec (n + 1) n (Nat.lt_succ_self n)).1

theorem natToChars_digits (n : Nat) : ∀ c ∈ natToChars n, isDigitC c = true :=
  (natToCharsAux_spec (n + 1) n (Nat.lt_succ_self n)).2.1

theorem digitsVal_natToChars (n : Nat) : digitsVal (natToChars n) = n := by
  have := (natToCharsAux_spec (n + 1) n (Nat.lt_succ_self n)).2.2 0
  simpa [digitsVal, natToChars] using this

theorem takeWhile_all_append {p : Char → Bool} {l r : List Char}
    (hl : ∀ c ∈ l, p c = true) (hr : headNot p r) :
    (l ++ r).takeWhile p = l ∧ (l ++ r).dropWhile p = r := by
  induction l with
  | nil =>
    simp only [List.nil_append]
    cases r with
    | nil => simp
    | cons c t => simp [List.takeWhile, List.dropWhile, headNot] at hr ⊢; simp [hr]
  | cons c l ih =>
    have hc := hl c (by simp)
    have ihr := ih (fun d hd => hl d (by simp [hd]))
    simp [List.takeWhile, List.dropWhile, hc, ihr.1, ihr.2]

theorem parseDigits_natToChars {rest : List Char} (n : Nat) (hr : headNot isDigitC rest) :
    parseDigits (natToChars n ++ rest) = some (n, rest) := by
  obtain ⟨htw, hdw⟩ := takeWhile_all_append (natToChars_digits n) hr
  obtain ⟨d, ds, hds⟩ := List.exists_cons_of_ne_nil (natToChars_ne_nil n)
  rw [parseDigits, htw, hdw, hds]
  have : digitsVal (d :: ds) = n := by rw [← hds, digitsVal_natToChars]
  simp [this]

theorem sizeJ_pos (v : Json) : 1 ≤ sizeJ v := by
  cases v <;> simp [sizeJ]

/-- A digit character is not whitespace and not any of the marker characters
the parser branches on. -/
theorem digit_head_facts {c : Char} (h : isDigitC c = true) :
    isWsC c = false ∧ c ≠ 'n' ∧ c ≠ 't' ∧ c ≠ 'f' ∧ c ≠ '"' ∧ c ≠ '-' ∧
    c ≠ '[' ∧ c ≠ '{' ∧ c ≠ ']' ∧ c ≠ '}' ∧ c ≠ ',' := by
  have hn : 48 ≤ c.toNat ∧ c.toNat ≤ 57 := by simpa [isDigitC] using h
  refine ⟨?_, ?_, ?_, ?_, ?_, ?_, ?_, ?_, ?_, ?_, ?_⟩
  · by_contra hws
    rw [Bool.not_eq_false] at hws
    simp [isWsC] at hws
    rcases hws with ((h1 | h1) | h1) | h1 <;> subst h1 <;> exact absurd hn (by decide)
  all_goals intro h1
  all_goals subst h1
  all_goals exact absurd hn (by decide)

/-- The serialization of any value starts with a non-whitespace character
distinct from the closing brackets. -/
theorem dumpsL_head (v : Json) :
    ∃ c t, dumpsL v = c :: t ∧ isWsC c = false ∧ c ≠ ']' ∧ c ≠ '}' := by
  cases v with
  | num i =>
    cases i with
    | ofNat n =>
      obtain ⟨d, ds, hds⟩ := List.exists_cons_of_ne_nil (natToChars_ne_nil n)
      have hdig : isDigitC d = true := natToChars_digits n d (by rw [hds]; simp)
      obtain ⟨hw, _, _, _, _, _, _, _, hrb, hcb, _⟩ := digit_head_facts hdig
      exact ⟨d, ds, by simp [dumpsL, intToChars, hds], hw, hrb, hcb⟩
    | negSucc m => refine ⟨_, _, rfl, ?_, ?_, ?_⟩ <;> decide
  | bool b => cases b <;> (refine ⟨_, _, rfl, ?_, ?_, ?_⟩ <;> decide)
  | arr xs => cases xs <;> (refine ⟨_, _, rfl, ?_, ?_, ?_⟩ <;> decide)
  | obj fs => cases fs <;> (refine ⟨_, _, rfl, ?_, ?_, ?_⟩ <;> decide)
  | null => refine ⟨_, _, rfl, ?_, ?_, ?_⟩ <;> decide
  | str s => refine ⟨_, _, rfl, ?_, ?_, ?_⟩ <;> decide

theorem skipWs_dumps (v : Json) (r : List Char) :
    skipWs (dumpsL v ++ r) = dumpsL v ++ r := by
  obtain ⟨c, t, hd, hw, _, _⟩ := dumpsL_head v
  rw [hd]
  exact skipWs_cons_not hw _

theorem headIs_rb_dumps (v : Json) (r : List Char) :
    headIs ']' (dumpsL v ++ r) = false := by
  obtain ⟨c, t, hd, _, hrb, _⟩ := dumpsL_head v
  rw [hd]
  simp [headIs, hrb]

theorem headIs_cb_dumps (v : Json) (r : List Char) :
    headIs '}' (dumpsL v ++ r) = false := by
  obtain ⟨c, t, hd, _, _, hcb⟩ := dumpsL_head v
  rw [hd]
  simp [headIs, hcb]

theorem dumpsTail_headNot (xs : List Json) (rest : List Char) :
    headNot isDigitC (dumpsTail xs ++ ']' :: rest) := by
  cases xs with
  | nil => show isDigitC ']' = false; decide
  | cons x xs => show isDigitC ',' = false; decide

theorem dumpsFTail_headNot (fs : List (List Char × Json)) (rest : List Char) :
    headNot isDigitC (dumpsFTail fs ++ '}' :: rest) := by
  cases fs with
  | nil => show isDigitC '}' = false; decide
  | cons kv fs => show isDigitC ',' = false; decide

theorem parseVal_space (fuel : Nat) (l : List Char) :
    parseVal fuel (' ' :: l) = parseVal fuel l := by
  cases fuel with
  | zero => rfl
  | succ fuel =>
    have h : skipWs (' ' :: l) = skipWs l := by simp [skipWs, isWsC]
    conv_lhs => rw [parseVal.eq_def]
    conv_rhs => rw [parseVal.eq_def]
    simp only [h]

/-- Round-trip of the serializer and the parser, for every fuel at least the
structural size of the value. -/
theorem roundTrip :
    ∀ fuel,
      (∀ v rest, sizeJ v ≤ fuel → headNot isDigitC rest →
        parseVal fuel (dumpsL v ++ rest) = some (v, rest)) ∧
      (∀ xs rest, sizeLJ xs ≤ fuel →
        parseItems fuel (dumpsTail xs ++ ']' :: rest) = some (xs, rest)) ∧
      (∀ k v rest, 1 + sizeJ v ≤ fuel → headNot isDigitC rest →
        parseMember fuel (dumpsField (k, v) ++ rest) = some ((k, v), rest)) ∧
      (∀ fs rest, sizeFJ fs ≤ fuel →
        parseMembers fuel (dumpsFTail fs ++ '}' :: rest) = some (fs, rest)) := by
  intro fuel
  induction fuel with
  | zero =>
    refine ⟨?_, ?_, ?_, ?_⟩
    · intro v rest hsz _
      exact absurd hsz (by have := sizeJ_pos v; omega)
    · intro xs rest hsz
      cases xs with
      | nil =>
        simp only [dumpsTail, List.nil_append]
        rw [parseItems.eq_def]
        simp [skipWs, isWsC, headIs]
      | cons x xs => simp [sizeLJ] at hsz
    · intro k v rest hsz _
      omega
    · intro fs rest hsz
      cases fs with
      | nil =>
        simp only [dumpsFTail, List.nil_append]
        rw [parseMembers.eq_def]
        simp [skipWs, isWsC, headIs]
      | cons kv fs => simp [sizeFJ] at hsz
  | succ fuel ih =>
    obtain ⟨ihV, ihI, ihM, ihMs⟩ := ih
    refine ⟨?_, ?_, ?_, ?_⟩
    · intro v rest hsz hrest
      cases v with
      | null =>
        rw [parseVal.eq_def]
        simp [dumpsL, skipWs, isWsC, expectChars]
      | bool b =>
        cases b with
        | true =>
          rw [parseVal.eq_def]
          simp [dumpsL, skipWs, isWsC, expectChars]
        | false =>
          rw [parseVal.eq_def]
          simp [dumpsL, skipWs, isWsC, expectChars]
      | num i =>
        cases i with
        | ofNat n =>
          obtain ⟨d, ds, hds⟩ := List.exists_cons_of_ne_nil (natToChars_ne_nil n)
          have hdig : isDigitC d = true := natToChars_digits n d (by rw [hds]; simp)
          obtain ⟨hw, hc1, hc2, hc3, hc4, hc5, hc6, hc7, _, _, _⟩ := digit_head_facts hdig
          have hsplit : dumpsL (Json.num (Int.ofNat n)) ++ rest = d :: (ds ++ rest) := by
            simp [dumpsL, intToChars, hds]
          rw [parseVal.eq_def, hsplit]
          simp only [skipWs_cons_not hw]
          simp only [hc1, hc2, hc3, hc4, hc5, hdig, if_true, ite_true, if_false,
            ite_false]
          have hback : d :: (ds ++ rest) = natToChars n ++ rest := by rw [hds]; simp
          rw [hback, parseDigits_natToChars n hrest]
          simp
        | negSucc m =>
          have hsplit : dumpsL (Json.num (Int.negSucc m)) ++ rest =
              '-' :: (natToChars (m + 1) ++ rest) := by
            simp [dumpsL, intToChars]
          rw [parseVal.eq_def, hsplit]
          simp only [skipWs_cons_not (show isWsC '-' = false by decide)]
          simp only [show ('-' = 'n') = False by simp, show ('-' = 't') = False by simp,
            show ('-' = 'f') = False by simp, show ('-' = '"') = False by simp,
            if_false, ite_false, if_pos rfl, ite_true]
          rw [parseDigits_natToChars (m + 1) hrest]
          simp [Int.negSucc_eq]
      | str s =>
        have hsplit : dumpsL (Json.str s) ++ rest =
            '"' :: (escapeStr s ++ '"' :: rest) := by
          simp [dumpsL]
        rw [parseVal.eq_def, hsplit]
        simp only [skipWs_cons_not (show isWsC '"' = false by decide)]
        simp only [show ('"' = 'n') = False by simp, show ('"' = 't') = False by simp,
          show ('"' = 'f') = False by simp, if_false, ite_false, if_pos rfl, ite_true]
        rw [parseStr_escape]
        simp
      | arr xs =>
        cases xs with
        | nil =>
          rw [parseVal.eq_def]
          simp [dumpsL, skipWs, isWsC, headIs, show isDigitC '[' = false by decide]
        | cons x xs =>
          have hszx : sizeJ x ≤ fuel := by simp [sizeJ, sizeLJ] at hsz; omega
          have hszxs : sizeLJ xs ≤ fuel := by simp [sizeJ, sizeLJ] at hsz; omega
          have hsplit : dumpsL (Json.arr (x :: xs)) ++ rest =
              '[' :: (dumpsL x ++ (dumpsTail xs ++ ']' :: rest)) := by
            simp [dumpsL]
          rw [parseVal.eq_def, hsplit]
          simp only [skipWs_cons_not (show isWsC '[' = false by decide)]
          simp only [show ('[' = 'n') = False by simp, show ('[' = 't') = False by simp,
            show ('[' = 'f') = False by simp, show ('[' = '"') = False by simp,
            show ('[' = '-') = False by simp, show isDigitC '[' = false by decide,
            if_false, ite_false, Bool.false_eq_true, if_pos rfl, ite_true]
          rw [skipWs_dumps, headIs_rb_dumps]
          simp only [Bool.false_eq_true, if_false, ite_false,
            ihV x _ hszx (dumpsTail_headNot xs rest), ihI xs rest hszxs]
      | obj fs =>
        cases fs with
        | nil =>
          rw [parseVal.eq_def]
          simp [dumpsL, skipWs, isWsC, headIs, show isDigitC '{' = false by decide]
        | cons kv fs =>
          obtain ⟨k, v⟩ := kv
          have hszv : 1 + sizeJ v ≤ fuel := by simp [sizeJ, sizeFJ] at hsz; omega
          have hszfs : sizeFJ fs ≤ fuel := by simp [sizeJ, sizeFJ] at hsz; omega
          have hsplit : dumpsL (Json.obj ((k, v) :: fs)) ++ rest =
              '{' :: (dumpsField (k, v) ++ (dumpsFTail fs ++ '}' :: rest)) := by
            simp [dumpsL]
          rw [parseVal.eq_def, hsplit]
          simp only [skipWs_cons_not (show isWsC '{' = false by decide)]
          simp only [show ('{' = 'n') = False by simp, show ('{' = 't') = False by simp,
            show ('{' = 'f') = False by simp, show ('{' = '"') = False by simp,
            show ('{' = '-') = False by simp, show ('{' = '[') = False by simp,
            show isDigitC '{' = false by decide,
            if_false, ite_false, Bool.false_eq_true, if_pos rfl, ite_true]
          have hfield : dumpsField (k, v) ++ (dumpsFTail fs ++ '}' :: rest) =
              '"' :: ((escapeStr k ++ ['"', ':', ' '] ++ dumpsL v) ++
                (dumpsFTail fs ++ '}' :: rest)) := by
            simp [dumpsField]
          rw [hfield, skipWs_cons_not (by decide), ← hfield]
          have hnb : headIs '}' (dumpsField (k, v) ++ (dumpsFTail fs ++ '}' :: rest)) = false := by
            rw [hfield]; simp [headIs]
          rw [hnb]
          simp only [Bool.false_eq_true, if_false, ite_false,
            ihM k v _ hszv (dumpsFTail_headNot fs rest), ihMs fs rest hszfs]
    · intro xs rest hsz
      cases xs with
      | nil =>
        simp only [dumpsTail, List.nil_append]
        rw [parseItems.eq_def]
        simp [skipWs, isWsC, headIs]
      | cons x xs =>
        have hszx : sizeJ x ≤ fuel := by simp [sizeLJ] at hsz; omega
        have hszxs : sizeLJ xs ≤ fuel := by simp [sizeLJ] at hsz; omega
        have hsplit : dumpsTail (x :: xs) ++ ']' :: rest =
            ',' :: ' ' :: (dumpsL x ++ (dumpsTail xs ++ ']' :: rest)) := by
          simp [dumpsTail]
        rw [parseItems.eq_def, hsplit]
        simp only [skipWs_cons_not (show isWsC ',' = false by decide)]
        simp only [headIs, show (',' = ']') = False by simp,
          Bool.false_eq_true, if_false, ite_false, if_pos rfl, ite_true,
          List.tail_cons]
        rw [parseVal_space]
        simp only [ihV x _ hszx (dumpsTail_headNot xs rest), ihI xs rest hszxs]
        simp
    · intro k v rest hsz hrest
      have hszv : sizeJ v ≤ fuel := by omega
      have hsplit : dumpsField (k, v) ++ rest =
          '"' :: (escapeStr k ++ '"' :: ':' :: ' ' :: (dumpsL v ++ rest)) := by
        simp [dumpsField]
      rw [parseMember.eq_def, hsplit]
      simp only [skipWs_cons_not (show isWsC '"' = false by decide)]
      simp only [headIs, if_pos rfl, ite_true, List.tail_cons,
        parseStr_escape]
      simp only [skipWs_cons_not (show isWsC ':' = false by decide)]
      simp only [headIs, if_pos rfl, ite_true, List.tail_cons]
      rw [parseVal_space]
      simp only [ihV v rest hszv hrest]
      simp
    · intro fs rest hsz
      cases fs with
      | nil =>
        simp only [dumpsFTail, List.nil_append]
        rw [parseMembers.eq_def]
        simp [skipWs, isWsC, headIs]
      | cons kv fs =>
        obtain ⟨k, v⟩ := kv
        have hszv : 1 + sizeJ v ≤ fuel := by simp [sizeFJ] at hsz; omega
        have hszfs : sizeFJ fs ≤ fuel := by simp [sizeFJ] at hsz; omega
        have hsplit : dumpsFTail ((k, v) :: fs) ++ '}' :: rest =
            ',' :: ' ' :: (dumpsField (k, v) ++ (dumpsFTail fs ++ '}' :: rest)) := by
          simp [dumpsFTail]
        rw [parseMembers.eq_def, hsplit]
        simp only [skipWs_cons_not (show isWsC ',' = false by decide)]
        simp only [headIs, show (',' = '}') = False by simp,
          Bool.false_eq_true, if_false, ite_false, if_pos rfl, ite_true,
          List.tail_cons]
        have hspace : parseMember fuel (' ' :: (dumpsField (k, v) ++
            (dumpsFTail fs ++ '}' :: rest))) = parseMember fuel (dumpsField (k, v) ++
            (dumpsFTail fs ++ '}' :: rest)) := by
          cases fuel with
          | zero => rfl
          | succ fuel =>
            have h : skipWs (' ' :: (dumpsField (k, v) ++ (dumpsFTail fs ++ '}' :: rest))) =
                skipWs (dumpsField (k, v) ++ (dumpsFTail fs ++ '}' :: rest)) := by
              simp [skipWs, isWsC]
            conv_lhs => rw [parseMember.eq_def]
            conv_rhs => rw [parseMember.eq_def]
            simp only [h]
        rw [hspace]
        simp only [ihM k v _ hszv (dumpsFTail_headNot fs rest), ihMs fs rest hszfs]
        simp

/-- Auxiliary bound: the tail serialization is at least as long as the size. -/
theorem sizeLJ_le (xs : List Json) (h : ∀ x ∈ xs, sizeJ x ≤ (dumpsL x).length) :
    sizeLJ xs ≤ (dumpsTail xs).length := by
  induction xs with
  | nil => simp [sizeLJ, dumpsTail]
  | cons x xs ih =>
    have hx := h x (by simp)
    have ihh := ih (fun y hy => h y (by simp [hy]))
    simp [sizeLJ, dumpsTail]
    omega

theorem sizeFJ_le (fs : List (List Char × Json))
    (h : ∀ kv ∈ fs, sizeJ kv.2 ≤ (dumpsL kv.2).length) :
    sizeFJ fs ≤ (dumpsFTail fs).length := by
  induction fs with
  | nil => simp [sizeFJ, dumpsFTail]
  | cons kv fs ih =>
    obtain ⟨k, v⟩ := kv
    have hx := h (k, v) (by simp)
    have ihh := ih (fun y hy => h y (by simp [hy]))
    simp [sizeFJ, dumpsFTail, dumpsField] at hx ihh ⊢
    omega

/-- The parser fuel `length + 1` used by `loads` always suffices. -/
theorem sizeJ_le_len (v : Json) : sizeJ v ≤ (dumpsL v).length := by
  suffices h : ∀ (N : Nat) (w : Json), sizeOf w ≤ N → sizeJ w ≤ (dumpsL w).length by
    exact h (sizeOf v) v le_rfl
  intro N
  induction N with
  | zero =>
    intro w hw
    cases w <;> simp at hw
  | succ N ihN =>
    intro w hw
    cases w with
    | null => simp [sizeJ, dumpsL]
    | bool b => cases b <;> simp [sizeJ, dumpsL]
    | num i =>
      cases i with
      | ofNat n =>
        have := List.length_pos.mpr (natToChars_ne_nil n)
        simp [sizeJ, dumpsL, intToChars]
        omega
      | negSucc m => simp [sizeJ, dumpsL, intToChars]
    | str s => simp [sizeJ, dumpsL]
    | arr xs =>
      have hel : ∀ x ∈ xs, sizeJ x ≤ (dumpsL x).length := by
        intro x hx
        apply ihN
        have h1 := List.sizeOf_lt_of_mem hx
        have h2 : sizeOf (Json.arr xs) = 1 + sizeOf xs := by simp
        omega
      cases xs with
      | nil => simp [sizeJ, sizeLJ, dumpsL]
      | cons x xs2 =>
        have hx := hel x (by simp)
        have ht := sizeLJ_le xs2 (fun y hy => hel y (by simp [hy]))
        simp [sizeJ, sizeLJ, dumpsL]
        omega
    | obj fs =>
      have hel : ∀ kv ∈ fs, sizeJ kv.2 ≤ (dumpsL kv.2).length := by
        intro kv hkv
        apply ihN
        have h1 := List.sizeOf_lt_of_mem hkv
        have h2 : sizeOf (Json.obj fs) = 1 + sizeOf fs := by simp
        have h3 : sizeOf kv.2 < sizeOf kv := by
          obtain ⟨a, b⟩ := kv
          simp
        omega
      cases fs with
      | nil => simp [sizeJ, sizeFJ, dumpsL]
      | cons kv fs2 =>
        obtain ⟨k, v⟩ := kv
        have hx := hel (k, v) (by simp)
        have ht := sizeFJ_le fs2 (fun y hy => hel y (by simp [hy]))
        simp [sizeJ, sizeFJ, dumpsL, dumpsField] at hx ht ⊢
        omega

/-- Round trip: `json.loads` inverts `json.dumps` on every modelled value. -/
theorem loads_dumps (v : Json) : loads (dumpsL v) = some v := by
  have h := (roundTrip ((dumpsL v).length + 1)).1 v []
    (by have := sizeJ_le_len v; omega) trivial
  rw [List.append_nil] at h
  rw [loads, h]
  simp [skipWs]

/-! ## Persistent store: `StendStore`
(`src/stend/core/managers/store_manager.py`)

The sqlite `store` table (`key TEXT PRIMARY KEY, value TEXT`) is modelled as
an association list from key to stored text; `INSERT OR REPLACE` is an
upsert.  Python values handed to `put` / returned by `get` are `Json`
(`Json.str` being a Python `str`, `Json.null` being `None`). -/

/-- Is the Python value a `str` (the `isinstance(value, str)` test in `put`)? -/
def isStrJ : Json → Bool
  | .str _ => true
  | _ => false

/-- The TEXT stored by `put`: a `str` is stored as is, any other value is
serialized with `json.dumps` first. -/
def storedText : Json → List Char
  | .str s => s
  | v => dumpsL v

/-- Upsert: `INSERT OR REPLACE INTO store (key, value) VALUES (?, ?)`. -/
def upsert : List (String × List Char) → String → List Char → List (String × List Char)
  | [], k, v => [(k, v)]
  | (k2, v2) :: rest, k, v =>
    if k2 = k then (k, v) :: rest else (k2, v2) :: upsert rest k v

/-- Row fetch: `SELECT value FROM store WHERE key = ?` (first matching row). -/
def lookupStore : List (String × List Char) → String → Option (List Char)
  | [], _ => none
  | (k2, v2) :: rest, k => if k2 = k then some v2 else lookupStore rest k

/-- Model of `StendStore.put`: serialize when the value is not a `str`, then upsert. -/
def StendStore.put (st : List (String × List Char)) (k : String) (v : Json) :
    List (String × List Char) :=
  upsert st k (storedText v)

/-- Model of `StendStore.get`: fetch the row; on a hit try `json.loads` and fall back
to the raw text on a decode error; a missing key yields `None`. -/
def StendStore.get (st : List (String × List Char)) (k : String) : Json :=
  match lookupStore st k with
  | none => Json.null
  | some txt =>
    match loads txt with
    | some j => j
    | none => Json.str txt

theorem lookupStore_upsert (st : List (String × List Char)) (k : String) (v : List Char) :
    lookupStore (upsert st k v) k = some v := by
  induction st with
  | nil => simp [upsert, lookupStore]
  | cons kv rest ih =>
    obtain ⟨k2, v2⟩ := kv
    by_cases h : k2 = k
    · simp [upsert, lookupStore, h]
    · simp [upsert, lookupStore, h, ih]

/-- C8: a non-string value round-trips through `put` / `get`. -/
theorem store_put_get_roundtrip (st : List (String × List Char)) (k : String) (v : Json)
    (h : isStrJ v = false) :
    StendStore.get (StendStore.put st k v) k = v := by
  have hst : storedText v = dumpsL v := by
    cases v <;> simp_all [storedText, isStrJ]
  rw [StendStore.get, StendStore.put, hst, lookupStore_upsert]
  simp only [loads_dumps]

/-- C8 witness at the spec's Scenario D: `put("admins", [1,2])` then
`get("admins")` returns `[1,2]`. -/
theorem store_put_get_roundtrip_witness :
    isStrJ (Json.arr [Json.num 1, Json.num 2]) = false ∧
    StendStore.get (StendStore.put [] "admins" (Json.arr [Json.num 1, Json.num 2]))
      "admins" = Json.arr [Json.num 1, Json.num 2] :=
  ⟨rfl, store_put_get_roundtrip [] "admins" (Json.arr [Json.num 1, Json.num 2]) rfl⟩

/-- C10: `get` always attempts to JSON-decode the stored text, so a stored
string that is valid JSON comes back decoded, a stored string that is not
valid JSON comes back unchanged, and a key never stored yields `None`;
concretely `"123"` decodes to the number `123` (not the string) and
`"[1,2]"` to the list `[1, 2]`. -/
theorem store_get_decodes (st : List (String × List Char)) (k : String)
    (s : List Char) (j : Json) :
    (loads s = some j → StendStore.get (StendStore.put st k (Json.str s)) k = j) ∧
    (loads s = none → StendStore.get (StendStore.put st k (Json.str s)) k = Json.str s) ∧
    StendStore.get [] k = Json.null ∧
    loads ("123".toList) = some (Json.num 123) ∧
    loads ("[1,2]".toList) = some (Json.arr [Json.num 1, Json.num 2]) ∧
    Json.num 123 ≠ Json.str ("123".toList) := by
  refine ⟨?_, ?_, ?_, rfl, rfl, by simp⟩
  · intro h
    rw [StendStore.get, StendStore.put, storedText, lookupStore_upsert]
    simp only [h]
  · intro h
    rw [StendStore.get, StendStore.put, storedText, lookupStore_upsert]
    simp only [h]
  · rw [StendStore.get]
    simp [lookupStore]

/-- C10 witness: a stored string that is valid JSON (`"123"`) comes back as
the decoded number, a stored string that is not (`"hello"`) comes back
unchanged. -/
theorem store_get_decodes_witness :
    StendStore.get (StendStore.put [] "k" (Json.str ("123".toList))) "k" = Json.num 123 ∧
    StendStore.get (StendStore.put [] "w" (Json.str ("hello".toList))) "w" =
      Json.str ("hello".toList) :=
  ⟨(store_get_decodes [] "k" ("123".toList) (Json.num 123)).1 rfl,
   (store_get_decodes [] "w" ("hello".toList) (Json.num 0)).2.1 rfl⟩

/-! ## Device transport: `AdbManager.run`
(`src/stend/core/managers/adb.py` and the identical
`src/stend/core/adb.py`)

`run` shells out to `adb -s <target> <args>`; the external command's outcome
is the model's input.  On `CalledProcessError` the error text is inspected:
the transient markers `"device offline"` and `"not found"` suppress the log
line, but every failure returns `None` to the caller. -/

/-- Does `needle` occur as a contiguous substring of the second list
(Python's `in` on strings)? -/
def containsSub : List Char → List Char → Bool
  | needle, [] => needle.isEmpty
  | needle, c :: t => needle.isPrefixOf (c :: t) || containsSub needle t

/-- Python `.strip()`: drop leading and trailing whitespace. -/
def stripChars (l : List Char) : List Char :=
  ((l.dropWhile isWsC).reverse.dropWhile isWsC).reverse

/-- Outcome of the external `adb` invocation. -/
inductive CmdOutcome where
  | ok (out : List Char)
  | fail (errMsg : List Char)

/-- What `run` produces: the value returned to the caller and whether the
`[ADB Error]` line was printed. -/
structure RunOutput where
  ret : Option (List Char)
  logged : Bool
deriving DecidableEq

/-- Model of `AdbManager.run`: success returns the stripped output; `CalledProcessError`
returns `None`, logging unless the error text contains a transient marker. -/
def AdbManager.run : CmdOutcome → RunOutput
  | .ok out => ⟨some (stripChars out), false⟩
  | .fail msg =>
    ⟨none, !(containsSub ("device offline".toList) msg ||
             containsSub ("not found".toList) msg)⟩

/-- C5 counterexample: a failure that matches no transient condition
(`"permission denied"`) yields the same `None` to the caller as a transient
`"device offline"` failure — it is logged, but not surfaced distinguishably. -/
theorem adb_run_collapses_failures :
    (AdbManager.run (CmdOutcome.fail ("permission denied".toList))).ret =
      (AdbManager.run (CmdOutcome.fail ("error: device offline".toList))).ret ∧
    (AdbManager.run (CmdOutcome.fail ("permission denied".toList))).ret = none ∧
    containsSub ("device offline".toList) ("permission denied".toList) = false ∧
    containsSub ("not found".toList) ("permission denied".toList) = false ∧
    (AdbManager.run (CmdOutcome.fail ("permission denied".toList))).logged = true ∧
    (AdbManager.run (CmdOutcome.fail ("error: device offline".toList))).logged = false :=
  ⟨rfl, rfl, rfl, rfl, rfl, rfl⟩

/-- C5 amended: `run` swallows every command failure, returning `None`
regardless of cause; the transient markers only decide whether the failure is
additionally logged. -/
theorem adb_run_swallows_all_failures (msg : List Char) :
    (AdbManager.run (CmdOutcome.fail msg)).ret = none ∧
    ((AdbManager.run (CmdOutcome.fail msg)).logged = true ↔
      (containsSub ("device offline".toList) msg = false ∧
       containsSub ("not found".toList) msg = false)) := by
  refine ⟨rfl, ?_⟩
  show (!(containsSub ("device offline".toList) msg ||
      containsSub ("not found".toList) msg)) = true ↔ _
  cases h1 : containsSub ("device offline".toList) msg <;>
    cases h2 : containsSub ("not found".toList) msg <;> simp

/-! ## Event bridge: `IrisBridge._run_loop` / `stop`
(`src/stend/core/bridge.py`)

The connection loop:

```
while self.keep_running:
    try: ... self.ws.run_forever() ...
    if self.keep_running:
        print("[Bridge] Reconnecting in 3s...")
        time.sleep(3)
```

Each iteration makes one connection attempt (`run_forever` returns when the
connection errors or closes).  The `keep_running` flag is read twice per
iteration; `stop()` sets it to `false`.  The model indexes the successive
flag reads and unrolls the loop for a given number of iterations. -/

inductive BridgeEv where
  | attempt : BridgeEv
  | delay (secs : Nat) : BridgeEv
deriving DecidableEq

/-- The trace of the connection loop: `keep` gives the value of
`keep_running` at each successive read, `idx` the index of the next read,
`fuel` how many iterations to unroll. -/
def runLoopTrace (keep : Nat → Bool) : Nat → Nat → List BridgeEv
  | 0, _ => []
  | fuel + 1, idx =>
    if keep idx then
      BridgeEv.attempt ::
        ((if keep (idx + 1) then [BridgeEv.delay 3] else []) ++
          runLoopTrace keep fuel (idx + 2))
    else []

theorem runLoopTrace_true (N idx : Nat) :
    runLoopTrace (fun _ => true) N idx =
      (List.replicate N [BridgeEv.attempt, BridgeEv.delay 3]).flatten := by
  induction N generalizing idx with
  | zero => simp [runLoopTrace]
  | succ N ih => simp [runLoopTrace, List.replicate_succ, ih]

theorem count_attempt_flatten (N : Nat) :
    ((List.replicate N [BridgeEv.attempt, BridgeEv.delay 3]).flatten).count
      BridgeEv.attempt = N := by
  induction N with
  | zero => simp
  | succ N ih => simp [List.replicate_succ, ih, List.count_cons]

/-- C6: while `stop()` is never called the loop makes one connection attempt
followed by the fixed 3-second delay, indefinitely — after any number `N` of
consecutive connection errors the trace holds exactly `N` attempts and the
loop is still going (no retry cap); once `keep_running` reads `false`, the
loop exits and produces nothing further. -/
theorem bridge_retries_forever :
    (∀ N : Nat,
      runLoopTrace (fun _ => true) N 0 =
        (List.replicate N [BridgeEv.attempt, BridgeEv.delay 3]).flatten ∧
      (runLoopTrace (fun _ => true) N 0).count BridgeEv.attempt = N) ∧
    (∀ (keep : Nat → Bool) (idx fuel : Nat), keep idx = false →
      runLoopTrace keep fuel idx = []) := by
  constructor
  · intro N
    refine ⟨runLoopTrace_true N 0, ?_⟩
    rw [runLoopTrace_true N 0]
    exact count_attempt_flatten N
  · intro keep idx fuel h
    cases fuel <;> simp [runLoopTrace, h]

/-- C6 witness: four iterations with the flag held `true` yield four
attempts, each followed by the 3-second delay; with the flag `false` the
loop produces nothing. -/
theorem bridge_retries_forever_witness :
    runLoopTrace (fun _ => true) 2 0 =
      [BridgeEv.attempt, BridgeEv.delay 3, BridgeEv.attempt, BridgeEv.delay 3] ∧
    (fun _ => false) 0 = false ∧
    runLoopTrace (fun _ => false) 5 0 = [] :=
  ⟨(bridge_retries_forever.1 2).1, rfl,
    bridge_retries_forever.2 (fun _ => false) 0 5 rfl⟩

/-! ## Plugin dispatch: `SkillManager.dispatch`
(`src/stend/core/managers/skill_manager.py`)

A loaded skill module is modelled by its name, which handler attributes it
exposes (`hasattr`), and the behaviour of each handler — an opaque function
returning either success or a raised exception message.  `dispatch` walks the
registry; the per-skill `try/except` turns a raised exception into a log
line and continues. -/

structure Skill where
  name : String
  hasOnMessage : Bool
  hasOnStendEvent : Bool
  onMessage : Json → Except String Unit
  onStendEvent : Json → Except String Unit

/-- Which handler (if any) the dispatch body invokes for this skill:
`if event_type == "message" and hasattr(skill, "on_message"): ...`
`elif event_type == "stend_event" and hasattr(skill, "on_stend_event"): ...`. -/
def handlerChoice (s : Skill) (eventType : String) (d : Json) :
    Option (Except String Unit) :=
  if eventType = "message" ∧ s.hasOnMessage = true then some (s.onMessage d)
  else if eventType = "stend_event" ∧ s.hasOnStendEvent = true then
    some (s.onStendEvent d)
  else none

/-- Does the dispatch body invoke a handler of this skill for this event
type (independent of the payload)? -/
def willInvoke (s : Skill) (eventType : String) : Bool :=
  (decide (eventType = "message") && s.hasOnMessage) ||
  (decide (eventType = "stend_event") && s.hasOnStendEvent)

/-- The log line `[SkillManager] Error in skill <name>: <e>`. -/
def errLine (name msg : String) : String :=
  "[SkillManager] Error in skill " ++ name ++ ": " ++ msg

/-- Model of `SkillManager.dispatch` over one event: the list of handler invocations
(skill name with the payload it received, in registry order) and the error
log lines.  Exceptions are caught per skill; nothing propagates. -/
def SkillManager.dispatch : List Skill → String → Json → List (String × Json) × List String
  | [], _, _ => ([], [])
  | s :: rest, ty, d =>
    let t := SkillManager.dispatch rest ty d
    match handlerChoice s ty d with
    | none => t
    | some (Except.ok _) => ((s.name, d) :: t.1, t.2)
    | some (Except.error e) => ((s.name, d) :: t.1, errLine s.name e :: t.2)

/-- Dispatching a sequence of events in arrival order (the bridge hands each
frame to the callback synchronously, one after the other). -/
def dispatchSeq (skills : List Skill) (ty : String) : List Json →
    List (String × Json) × List String
  | [] => ([], [])
  | e :: es =>
    let h := SkillManager.dispatch skills ty e
    let t := dispatchSeq skills ty es
    (h.1 ++ t.1, h.2 ++ t.2)

/-- The payloads delivered to the skill named `n`, in order. -/
def receivedBy (invs : List (String × Json)) (n : String) : List Json :=
  invs.filterMap (fun p => if p.1 = n then some p.2 else none)

theorem handlerChoice_some_of_willInvoke (s : Skill) (ty : String) (d : Json)
    (h : willInvoke s ty = true) : handlerChoice s ty d ≠ none := by
  rw [willInvoke] at h
  simp only [Bool.or_eq_true, Bool.and_eq_true, decide_eq_true_eq] at h
  rcases h with ⟨h1, h2⟩ | ⟨h1, h2⟩ <;> subst h1 <;> simp [handlerChoice, h2]

theorem receivedBy_not_present (skills : List Skill) (ty : String) (d : Json)
    (n : String) (h : n ∉ skills.map Skill.name) :
    receivedBy (SkillManager.dispatch skills ty d).1 n = [] := by
  induction skills with
  | nil => simp [SkillManager.dispatch, receivedBy]
  | cons s rest ih =>
    simp only [List.map_cons, List.mem_cons, not_or] at h
    have hs : s.name ≠ n := fun he => h.1 he.symm
    have iht := ih h.2
    rw [SkillManager.dispatch]
    cases hc : handlerChoice s ty d with
    | none => exact iht
    | some r =>
      cases r with
      | ok u => simpa [receivedBy, hs] using iht
      | error e => simpa [receivedBy, hs] using iht

theorem receivedBy_dispatch_one (skills : List Skill) (ty : String) (d : Json)
    (B : Skill) (hnodup : (skills.map Skill.name).Nodup) (hB : B ∈ skills)
    (hBi : willInvoke B ty = true) :
    receivedBy (SkillManager.dispatch skills ty d).1 B.name = [d] := by
  induction skills with
  | nil => exact absurd hB (List.not_mem_nil B)
  | cons s rest ih =>
    rw [List.map_cons, List.nodup_cons] at hnodup
    by_cases hname : s.name = B.name
    · have hsB : s = B := by
        rcases List.mem_cons.mp hB with h | h
        · exact h.symm
        · exfalso
          exact hnodup.1 (hname ▸ (List.mem_map_of_mem Skill.name h))
      subst hsB
      have hrest : receivedBy (SkillManager.dispatch rest ty d).1 s.name = [] :=
        receivedBy_not_present rest ty d s.name hnodup.1
      have hinv : handlerChoice s ty d ≠ none :=
        handlerChoice_some_of_willInvoke s ty d hBi
      rw [SkillManager.dispatch]
      cases hc : handlerChoice s ty d with
      | none => exact absurd hc hinv
      | some r =>
        cases r with
        | ok u => simpa [receivedBy] using hrest
        | error e => simpa [receivedBy] using hrest
    · have hBrest : B ∈ rest := by
        rcases List.mem_cons.mp hB with h | h
        · exact absurd (h ▸ rfl) hname
        · exact h
      have iht := ih hnodup.2 hBrest
      rw [SkillManager.dispatch]
      cases hc : handlerChoice s ty d with
      | none => exact iht
      | some r =>
        cases r with
        | ok u => simpa [receivedBy, hname] using iht
        | error e => simpa [receivedBy, hname] using iht

theorem receivedBy_append (a b : List (String × Json)) (n : String) :
    receivedBy (a ++ b) n = receivedBy a n ++ receivedBy b n := by
  simp [receivedBy, List.filterMap_append]

theorem errLine_mem_dispatch (skills : List Skill) (ty : String) (d : Json)
    (A : Skill) (hA : A ∈ skills) (e : String)
    (hfail : handlerChoice A ty d = some (Except.error e)) :
    errLine A.name e ∈ (SkillManager.dispatch skills ty d).2 := by
  induction skills with
  | nil => exact absurd hA (List.not_mem_nil A)
  | cons s rest ih =>
    rw [SkillManager.dispatch]
    rcases List.mem_cons.mp hA with h | h
    · subst h
      rw [hfail]
      simp
    · have iht := ih h
      cases hc : handlerChoice s ty d with
      | none => exact iht
      | some r =>
        cases r with
        | ok u => simpa using iht
        | error e2 => simpa using List.mem_cons_of_mem _ iht

/-- C7: plugin-failure isolation.  If skill `A`\'s handler raises on every
payload, every other registered skill `B` exposing a handler for the event
type still receives every dispatched event, in arrival order; each failure
is logged with `A`\'s name; nothing propagates (dispatch is a total
function). -/
theorem skill_dispatch_isolation (skills : List Skill) (ty : String)
    (events : List Json) (A B : Skill)
    (hnodup : (skills.map Skill.name).Nodup)
    (hA : A ∈ skills)
    (hAfail : ∀ d, ∃ msg, handlerChoice A ty d = some (Except.error msg))
    (hB : B ∈ skills) (hBi : willInvoke B ty = true) :
    receivedBy (dispatchSeq skills ty events).1 B.name = events ∧
    ∀ e ∈ events, ∃ msg, errLine A.name msg ∈ (dispatchSeq skills ty events).2 := by
  induction events with
  | nil => simp [dispatchSeq, receivedBy]
  | cons e es ih =>
    obtain ⟨ih1, ih2⟩ := ih
    constructor
    · rw [dispatchSeq]
      rw [receivedBy_append, ih1,
        receivedBy_dispatch_one skills ty e B hnodup hB hBi]
      simp
    · intro e2 he2
      obtain ⟨msg, hmsg⟩ := hAfail e
      rcases List.mem_cons.mp he2 with h | h
      · exact ⟨msg, by
          rw [dispatchSeq]
          exact List.mem_append_left _
            (errLine_mem_dispatch skills ty e A hA msg hmsg)⟩
      · obtain ⟨msg2, hmem⟩ := ih2 e2 h
        exact ⟨msg2, by
          rw [dispatchSeq]
          exact List.mem_append_right _ hmem⟩

/-- The always-raising skill used in the C7 witness. -/
def badSkill : Skill :=
  ⟨"bad", false, true, fun _ => Except.ok (), fun _ => Except.error "boom"⟩

/-- The well-behaved skill used in the C7 witness. -/
def goodSkill : Skill :=
  ⟨"good", false, true, fun _ => Except.ok (), fun _ => Except.ok ()⟩

/-- C7 witness: with \`bad\` raising on all three events, \`good\` still
receives all three, in order, and each failure is logged. -/
theorem skill_dispatch_isolation_witness :
    receivedBy (dispatchSeq [badSkill, goodSkill] "stend_event"
      [Json.null, Json.num 1, Json.num 2]).1 "good" =
        [Json.null, Json.num 1, Json.num 2] ∧
    ∃ msg, errLine "bad" msg ∈ (dispatchSeq [badSkill, goodSkill] "stend_event"
      [Json.null, Json.num 1, Json.num 2]).2 := by
  have h := skill_dispatch_isolation [badSkill, goodSkill] "stend_event"
    [Json.null, Json.num 1, Json.num 2] badSkill goodSkill
    (by simp [badSkill, goodSkill])
    (by simp)
    (fun d => ⟨"boom", rfl⟩)
    (by simp)
    rfl
  exact ⟨h.1, h.2 Json.null (by simp)⟩

/-! ## Plugin loading
(`SkillManager.load_skills` in `src/stend/core/managers/skill_manager.py`,
and the legacy `load_skills` in `src/stend/core/orchestrator.py`)

A directory entry is a filename plus the outcome of executing the module
(`importlib...exec_module`): either a module — of which only the
`hasattr(mod, "on_message")` test matters here — or a raised exception.
`os.listdir` order is the list order. -/

structure ModInfo where
  hasOnMessage : Bool

structure SkillFile where
  filename : List Char
  loadResult : Except String ModInfo

/-- Test `filename.endswith(".py")`. -/
def pyFile (f : List Char) : Bool := (".py".toList).isSuffixOf f

/-- Test `filename.startswith("__")`. -/
def isDunder (f : List Char) : Bool := ("__".toList).isPrefixOf f

/-- Python `filename[:-3]`. -/
def skillNameOf (f : List Char) : List Char := f.take (f.length - 3)

/-- The loop body of `SkillManager.load_skills`: no `try/except`, so a
raised exception propagates out of the whole call. -/
def managerLoadGo : List SkillFile → Except String (List (List Char))
  | [] => Except.ok []
  | f :: rest =>
    if pyFile f.filename = true ∧ f.filename ≠ ("__init__.py".toList) then
      match f.loadResult with
      | Except.error e => Except.error e
      | Except.ok _ =>
        match managerLoadGo rest with
        | Except.error e => Except.error e
        | Except.ok names => Except.ok (skillNameOf f.filename :: names)
    else managerLoadGo rest

/-- Model of `SkillManager.load_skills`: a missing directory is created and yields
`[]`; otherwise every `.py` file except `__init__.py` is executed. -/
def SkillManager.loadSkills : Option (List SkillFile) → Except String (List (List Char))
  | none => Except.ok []
  | some files => managerLoadGo files

/-- The log line `[Skills] Failed to load <name>: <e>`. -/
def failLine (n : List Char) (e : String) : String :=
  "[Skills] Failed to load " ++ String.mk n ++ ": " ++ e

/-- The log line `[Skills] Loaded <name>`. -/
def loadLine (n : List Char) : String := "[Skills] Loaded " ++ String.mk n

/-- One iteration of the legacy orchestrator loader: the per-file
`try/except` turns a load failure into a log line, and only modules exposing
`on_message` are registered. -/
def orchStep (f : SkillFile) (t : List (List Char) × List String) :
    List (List Char) × List String :=
  if pyFile f.filename = true ∧ isDunder f.filename = false then
    match f.loadResult with
    | Except.error e => (t.1, failLine (skillNameOf f.filename) e :: t.2)
    | Except.ok m =>
      if m.hasOnMessage then
        (skillNameOf f.filename :: t.1, loadLine (skillNameOf f.filename) :: t.2)
      else t
  else t

/-- The legacy orchestrator loader over the directory listing, producing the
loaded names and the log lines. -/
def orchLoadGo : List SkillFile → List (List Char) × List String
  | [] => ([], [])
  | f :: rest => orchStep f (orchLoadGo rest)

/-- The legacy `load_skills`: a missing directory yields `[]`. -/
def orchLoadSkills : Option (List SkillFile) → List (List Char) × List String
  | none => ([], [])
  | some files => orchLoadGo files

/-- The directory of the Scenario-B counterexample: two valid units and one
whose loading raises. -/
def c2Files : List SkillFile :=
  [⟨"alpha.py".toList, Except.ok ⟨true⟩⟩,
   ⟨"broken.py".toList, Except.error "boom"⟩,
   ⟨"gamma.py".toList, Except.ok ⟨true⟩⟩]

/-- C2 counterexample: with 2 valid units and 1 failing unit,
`SkillManager.load_skills` propagates the exception of the failing unit and
aborts the whole load — it does not return the 2 valid names. -/
theorem manager_load_aborts_on_failure :
    SkillManager.loadSkills (some c2Files) = Except.error "boom" ∧
    SkillManager.loadSkills (some c2Files) ≠
      Except.ok ["alpha".toList, "gamma".toList] := by
  refine ⟨rfl, ?_⟩
  intro hcontra
  rw [show SkillManager.loadSkills (some c2Files) = Except.error "boom" from rfl]
    at hcontra
  exact Except.noConfusion hcontra

theorem orchStep_fst_congr (g : SkillFile) (t t2 : List (List Char) × List String)
    (h : t.1 = t2.1) : (orchStep g t).1 = (orchStep g t2).1 := by
  rw [orchStep, orchStep]
  by_cases hc : pyFile g.filename = true ∧ isDunder g.filename = false
  · rw [if_pos hc, if_pos hc]
    cases hr : g.loadResult with
    | error e => simpa using h
    | ok m =>
      by_cases hm : m.hasOnMessage = true
      · simp [hm, h]
      · simp only [Bool.not_eq_true] at hm
        simp [hm, h]
  · rw [if_neg hc, if_neg hc]
    exact h

theorem orchStep_snd_mem (g : SkillFile) (t : List (List Char) × List String)
    (l : String) (h : l ∈ t.2) : l ∈ (orchStep g t).2 := by
  rw [orchStep]
  by_cases hc : pyFile g.filename = true ∧ isDunder g.filename = false
  · rw [if_pos hc]
    cases hr : g.loadResult with
    | error e => simpa using Or.inr h
    | ok m =>
      by_cases hm : m.hasOnMessage = true
      · simp [hm, h]
      · simp only [Bool.not_eq_true] at hm
        simp [hm, h]
  · rw [if_neg hc]
    exact h

/-- C2 amended, legacy-loader part: in the orchestrator's `load_skills` a
unit whose loading raises is skipped and logged and does not abort the load —
the returned names are exactly those of the same directory without the
failing unit. -/
theorem orch_load_skips_failure (pre post : List SkillFile) (f : SkillFile)
    (e : String) (hpy : pyFile f.filename = true) (hnd : isDunder f.filename = false)
    (hfail : f.loadResult = Except.error e) :
    (orchLoadGo (pre ++ f :: post)).1 = (orchLoadGo (pre ++ post)).1 ∧
    failLine (skillNameOf f.filename) e ∈ (orchLoadGo (pre ++ f :: post)).2 := by
  induction pre with
  | nil =>
    simp only [List.nil_append]
    constructor
    · rw [orchLoadGo, orchStep, if_pos ⟨hpy, hnd⟩, hfail]
    · rw [orchLoadGo, orchStep, if_pos ⟨hpy, hnd⟩, hfail]
      simp
  | cons g pre ih =>
    obtain ⟨ih1, ih2⟩ := ih
    constructor
    · simp only [List.cons_append, orchLoadGo]
      exact orchStep_fst_congr g _ _ ih1
    · simp only [List.cons_append, orchLoadGo]
      exact orchStep_snd_mem g _ _ ih2

/-- C2 amended witness at Scenario B\'s directory: the legacy loader returns
exactly the 2 valid names, skipping and logging the failing unit. -/
theorem orch_load_skips_failure_witness :
    (orchLoadGo ([⟨"alpha.py".toList, Except.ok ⟨true⟩⟩] ++
        ⟨"broken.py".toList, Except.error "boom"⟩ ::
        [⟨"gamma.py".toList, Except.ok ⟨true⟩⟩])).1 =
      (orchLoadGo ([⟨"alpha.py".toList, Except.ok ⟨true⟩⟩] ++
        [⟨"gamma.py".toList, Except.ok ⟨true⟩⟩])).1 ∧
    failLine (skillNameOf ("broken.py".toList)) "boom" ∈
      (orchLoadGo ([⟨"alpha.py".toList, Except.ok ⟨true⟩⟩] ++
        ⟨"broken.py".toList, Except.error "boom"⟩ ::
        [⟨"gamma.py".toList, Except.ok ⟨true⟩⟩])).2 ∧
    (orchLoadGo ([⟨"alpha.py".toList, Except.ok ⟨true⟩⟩] ++
        ⟨"broken.py".toList, Except.error "boom"⟩ ::
        [⟨"gamma.py".toList, Except.ok ⟨true⟩⟩])).1 =
      ["alpha".toList, "gamma".toList] := by
  have h := orch_load_skips_failure [⟨"alpha.py".toList, Except.ok ⟨true⟩⟩]
    [⟨"gamma.py".toList, Except.ok ⟨true⟩⟩]
    ⟨"broken.py".toList, Except.error "boom"⟩ "boom" rfl rfl rfl
  exact ⟨h.1, h.2, rfl⟩

/-! ## Event pipeline: `IrisBridge._on_message` → `dispatch`
(`src/stend/core/bridge.py` lines 41-47 and the `dispatch` callback defined
inside `lifecycle_start`, `src/stend/core/api_server.py` lines 119-144)

`_on_message` does `data = json.loads(message)` on the inbound frame text
and passes the **parsed object** to the registered callback.  The callback
`dispatch(raw_data)` then does `data = json.loads(raw_data)` again inside its
`try`, branches on `"msg" in data` / `data.get("type") == "stend_event"`,
dispatches to the skills and triggers the webhooks; any exception is caught
and logged as `Dispatch Error`.

Python dynamic typing is modelled explicitly: `json.loads` raises `TypeError`
on a non-string argument, `in` raises on values that support no membership
test, `.get` raises `AttributeError` on non-dicts. -/

mutual

/-- Python `==` on JSON-shaped values (only ever used against strings in the
dispatch callback). -/
def jsonBeq : Json → Json → Bool
  | Json.null, Json.null => true
  | Json.bool a, Json.bool b => a == b
  | Json.num a, Json.num b => a == b
  | Json.str a, Json.str b => a == b
  | Json.arr a, Json.arr b => jsonListBeq a b
  | Json.obj a, Json.obj b => jsonObjBeq a b
  | _, _ => false

def jsonListBeq : List Json → List Json → Bool
  | [], [] => true
  | x :: xs, y :: ys => jsonBeq x y && jsonListBeq xs ys
  | _, _ => false

def jsonObjBeq : List (List Char × Json) → List (List Char × Json) → Bool
  | [], [] => true
  | (k1, v1) :: xs, (k2, v2) :: ys => (k1 == k2) && jsonBeq v1 v2 && jsonObjBeq xs ys
  | _, _ => false

end

/-- Python `json.loads` applied to a runtime value: only a `str` is parsed; any
other argument raises `TypeError` (and invalid JSON text raises
`ValueError`); both land in the callback's `except`. -/
def pyLoads : Json → Except Unit Json
  | Json.str s =>
    match loads s with
    | some j => Except.ok j
    | none => Except.error ()
  | _ => Except.error ()

/-- Python `needle in data`: key test on a dict, membership on a list,
substring on a string; anything else raises `TypeError`. -/
def pyIn (needle : List Char) : Json → Except Unit Bool
  | Json.obj fs => Except.ok (fs.any (fun kv => decide (kv.1 = needle)))
  | Json.arr xs => Except.ok (xs.any (fun x => jsonBeq x (Json.str needle)))
  | Json.str s => Except.ok (containsSub needle s)
  | _ => Except.error ()

/-- Python `data.get(key)`: only dicts have `.get`; a missing key gives
`None`. -/
def pyGet : Json → List Char → Except Unit Json
  | Json.obj fs, k =>
    Except.ok (match fs.find? (fun kv => decide (kv.1 = k)) with
      | some kv => kv.2
      | none => Json.null)
  | _, _ => Except.error ()

/-- Observable effects of one run of the dispatch callback. -/
structure DispatchFx where
  skillInvocations : List (String × Json)
  webhookTriggers : List (Json × Json)
  skillLogs : List String
  dispatchError : Bool

/-- The `dispatch` callback defined inside `lifecycle_start`
(api_server.py): re-parse the argument, dispatch `"message"` frames to the
skills and the `message` webhook, dispatch `{"type": "stend_event"}` frames
to the skills and the named-event webhook; any exception is caught and
logged (`Dispatch Error`). -/
def apiDispatch (skills : List Skill) (rawData : Json) : DispatchFx :=
  match pyLoads rawData with
  | Except.error _ => ⟨[], [], [], true⟩
  | Except.ok data =>
    match pyIn ("msg".toList) data with
    | Except.error _ => ⟨[], [], [], true⟩
    | Except.ok hasMsg =>
      if hasMsg then
        let r := SkillManager.dispatch skills "message" data
        ⟨r.1, [(Json.str ("message".toList), data)], r.2, false⟩
      else
        match pyGet data ("type".toList) with
        | Except.error _ => ⟨[], [], [], true⟩
        | Except.ok tv =>
          if jsonBeq tv (Json.str ("stend_event".toList)) then
            match pyGet data ("event".toList) with
            | Except.error _ => ⟨[], [], [], true⟩
            | Except.ok eventName =>
              let r := SkillManager.dispatch skills "stend_event" data
              ⟨r.1, [(eventName, data)], r.2, false⟩
          else ⟨[], [], [], false⟩

/-- Model of `IrisBridge._on_message` with the api_server dispatch callback
registered: parse the frame text (a parse failure is logged by the bridge
and the callback is not invoked — the second component), otherwise hand the
parsed object to the callback. -/
def bridgeOnMessage (skills : List Skill) (frame : List Char) : DispatchFx × Bool :=
  match loads frame with
  | none => (⟨[], [], [], false⟩, true)
  | some d => (apiDispatch skills d, false)

/-- The inbound frame of Scenario C. -/
def c1Frame : List Char :=
  "\x7b\"type\":\"stend_event\",\"event\":\"NICKNAME_CHANGE\",\"target_id\":7\x7d".toList

/-- The parsed form of `c1Frame`. -/
def c1Obj : Json :=
  Json.obj [("type".toList, Json.str ("stend_event".toList)),
            ("event".toList, Json.str ("NICKNAME_CHANGE".toList)),
            ("target_id".toList, Json.num 7)]

/-- Two loaded units, both exposing the system-event handler. -/
def c1Skills : List Skill :=
  [⟨"alpha", false, true, fun _ => Except.ok (), fun _ => Except.ok ()⟩,
   ⟨"beta", false, true, fun _ => Except.ok (), fun _ => Except.ok ()⟩]

/-- C1: the bridge parses the frame and passes the parsed dict to the
callback, whose own `json.loads(raw_data)` then raises `TypeError` — caught
and logged as `Dispatch Error`.  So for the Scenario-C frame no skill
handler is invoked and no webhook is triggered, instead of exactly once
each.  The last two conjuncts document the intent: handed the frame *text*
(what its `json.loads` expects), the same callback dispatches to each unit
exactly once and triggers the webhook exactly once with
`NICKNAME_CHANGE`. -/
theorem dispatch_double_parse_bug :
    loads c1Frame = some c1Obj ∧
    (bridgeOnMessage c1Skills c1Frame).2 = false ∧
    (bridgeOnMessage c1Skills c1Frame).1.skillInvocations = [] ∧
    (bridgeOnMessage c1Skills c1Frame).1.webhookTriggers = [] ∧
    (bridgeOnMessage c1Skills c1Frame).1.dispatchError = true ∧
    (apiDispatch c1Skills (Json.str c1Frame)).skillInvocations =
      [("alpha", c1Obj), ("beta", c1Obj)] ∧
    (apiDispatch c1Skills (Json.str c1Frame)).webhookTriggers =
      [(Json.str ("NICKNAME_CHANGE".toList), c1Obj)] ∧
    (apiDispatch c1Skills (Json.str c1Frame)).dispatchError = false :=
  ⟨rfl, rfl, rfl, rfl, rfl, rfl, rfl, rfl⟩

/-! ## Startup sequence: `lifecycle_start`
(`src/stend/core/api_server.py` lines 84-149, and the legacy
`src/stend/core/orchestrator.py` lines 104-126)

The environment captures the outcome of each external step; the state is the
`SYSTEM_STATUS` dict.  The api_server version: probe failure sets
`android = "error"` and returns; a deploy/launch failure sets
`android = "error"` but the function continues — port forwarding, skill
loading and the bridge start still run; a skill-load exception reaches the
outer `except`, which sets `android = "error"` (the bridge is then not
started). -/

structure SysStatus where
  android : String
  irisBridge : String
  skillsActive : Nat
deriving DecidableEq

structure LifecycleEnv where
  deviceReady : Bool
  apkExists : Bool
  launchOk : Bool
  skillsLoad : Except String (List String)

/-- Which later stages ran during the call. -/
structure LifecycleFx where
  forwardCalled : Bool
  skillsLoadCalled : Bool
  bridgeStarted : Bool
deriving DecidableEq

/-- Model of `lifecycle_start` of the API server. -/
def lifecycleStart (env : LifecycleEnv) (st : SysStatus) : SysStatus × LifecycleFx :=
  let st1 := { st with android := "connecting" }
  if env.deviceReady = false then
    ({ st1 with android := "error" }, ⟨false, false, false⟩)
  else
    let st2 :=
      if env.apkExists then
        if env.launchOk then { st1 with android := "running" }
        else { st1 with android := "error" }
      else { st1 with android := "error" }
    match env.skillsLoad with
    | Except.error _ => ({ st2 with android := "error" }, ⟨true, true, false⟩)
    | Except.ok names =>
      ({ st2 with skillsActive := names.length, irisBridge := "connected" },
        ⟨true, true, true⟩)

/-- C3 counterexample: device ready but the subsystem APK missing — the
deploy stage fails, yet port forwarding, skill loading and the bridge start
all still happen, and the bridge state is set to `connected` (the claimed
abort does not exist in the code). -/
theorem deploy_failure_does_not_abort :
    (lifecycleStart ⟨true, false, true, Except.ok ["s1", "s2"]⟩
        ⟨"unknown", "disconnected", 0⟩).2.forwardCalled = true ∧
    (lifecycleStart ⟨true, false, true, Except.ok ["s1", "s2"]⟩
        ⟨"unknown", "disconnected", 0⟩).2.skillsLoadCalled = true ∧
    (lifecycleStart ⟨true, false, true, Except.ok ["s1", "s2"]⟩
        ⟨"unknown", "disconnected", 0⟩).2.bridgeStarted = true ∧
    (lifecycleStart ⟨true, false, true, Except.ok ["s1", "s2"]⟩
        ⟨"unknown", "disconnected", 0⟩).1.irisBridge = "connected" ∧
    (lifecycleStart ⟨true, false, true, Except.ok ["s1", "s2"]⟩
        ⟨"unknown", "disconnected", 0⟩).1.android = "error" :=
  ⟨rfl, rfl, rfl, rfl, rfl⟩

/-- C3 amended: on a deploy+launch failure the device state does end the run
as `error`, but the remaining stages are not aborted: port forwarding and
skill loading still run, and — when skill loading does not itself raise —
the bridge is started and the bridge state set to `connected`. -/
theorem deploy_failure_continues (env : LifecycleEnv) (st : SysStatus)
    (hdev : env.deviceReady = true)
    (hfail : env.apkExists = false ∨ env.launchOk = false) :
    (lifecycleStart env st).1.android = "error" ∧
    (lifecycleStart env st).2.forwardCalled = true ∧
    (lifecycleStart env st).2.skillsLoadCalled = true ∧
    ∀ names, env.skillsLoad = Except.ok names →
      (lifecycleStart env st).2.bridgeStarted = true ∧
      (lifecycleStart env st).1.irisBridge = "connected" := by
  obtain ⟨d, a, l, sl⟩ := env
  simp only at hdev hfail
  subst hdev
  rcases sl with e | names2 <;> cases a <;> cases l <;>
    simp_all [lifecycleStart]

/-- C3 amended witness: APK missing, skills load fine — device ends in
`error`, all later stages ran, bridge set `connected`. -/
theorem deploy_failure_continues_witness :
    (lifecycleStart ⟨true, false, true, Except.ok ["x"]⟩
        ⟨"unknown", "disconnected", 0⟩).1.android = "error" ∧
    (lifecycleStart ⟨true, false, true, Except.ok ["x"]⟩
        ⟨"unknown", "disconnected", 0⟩).2.forwardCalled = true ∧
    (lifecycleStart ⟨true, false, true, Except.ok ["x"]⟩
        ⟨"unknown", "disconnected", 0⟩).2.skillsLoadCalled = true ∧
    (lifecycleStart ⟨true, false, true, Except.ok ["x"]⟩
        ⟨"unknown", "disconnected", 0⟩).2.bridgeStarted = true ∧
    (lifecycleStart ⟨true, false, true, Except.ok ["x"]⟩
        ⟨"unknown", "disconnected", 0⟩).1.irisBridge = "connected" := by
  have h := deploy_failure_continues ⟨true, false, true, Except.ok ["x"]⟩
    ⟨"unknown", "disconnected", 0⟩ rfl (Or.inl rfl)
  exact ⟨h.1, h.2.1, h.2.2.1, (h.2.2.2 ["x"] rfl).1, (h.2.2.2 ["x"] rfl).2⟩

/-! ### The legacy orchestrator startup -/

structure OrchStatus where
  android : String
  irisBridge : String
  activeSkills : List (List Char)
deriving DecidableEq

structure OrchEnv where
  deviceReady : Bool
  serviceStarts : Bool

/-- The legacy `lifecycle_start` (orchestrator.py): `adb.wait_for_device()`
is called but its result is discarded; `android` is set to `"connected"`
unconditionally, then possibly `"running_app"`, and the bridge is started
and marked `connected` regardless of the probe's outcome. -/
def orchLifecycleStart (env : OrchEnv) (st : OrchStatus) : OrchStatus :=
  let st1 := { st with android := "connected" }
  let st2 := if env.serviceStarts then { st1 with android := "running_app" } else st1
  { st2 with irisBridge := "connected" }

/-- C4 counterexample: in the legacy orchestrator, with the probe timing out
(`wait_for_device` returns false) and the subsystem absent, the run still
ends with `android = "connected"` and `iris_bridge = "connected"` — the
device field reports a connected-like state with no successful probe, and a
probe timeout does not yield `error`/`disconnected`. -/
theorem legacy_lifecycle_ignores_probe :
    orchLifecycleStart ⟨false, false⟩ ⟨"unknown", "disconnected", []⟩ =
      ⟨"connected", "connected", []⟩ ∧
    (orchLifecycleStart ⟨false, false⟩
        ⟨"unknown", "disconnected", []⟩).android ≠ "error" ∧
    (orchLifecycleStart ⟨false, false⟩
        ⟨"unknown", "disconnected", []⟩).irisBridge ≠ "disconnected" :=
  ⟨rfl, by decide, by decide⟩

/-- C4 amended: the API server's `lifecycle_start` satisfies the claim — on
a probe timeout it completes with `android = "error"`, the bridge state and
the active-plugin count unchanged, and no later stage runs; and its device
field only ever reaches the connected-like `"running"` state when the probe,
the deploy and the launch all succeeded.  (The legacy orchestrator module
violates this, per the counterexample.) -/
theorem probe_timeout_behavior :
    (∀ (env : LifecycleEnv) (st : SysStatus), env.deviceReady = false →
      (lifecycleStart env st).1.android = "error" ∧
      (lifecycleStart env st).1.irisBridge = st.irisBridge ∧
      (lifecycleStart env st).1.skillsActive = st.skillsActive ∧
      (lifecycleStart env st).2 = ⟨false, false, false⟩) ∧
    (∀ (env : LifecycleEnv) (st : SysStatus),
      (lifecycleStart env st).1.android = "running" →
      env.deviceReady = true ∧ env.apkExists = true ∧ env.launchOk = true) := by
  constructor
  · intro env st h
    obtain ⟨d, a, l, sl⟩ := env
    simp only at h
    subst h
    simp [lifecycleStart]
  · intro env st h
    obtain ⟨d, a, l, sl⟩ := env
    rcases sl with e | names <;> cases d <;> cases a <;> cases l <;>
      simp_all [lifecycleStart]

/-- C4 amended witness: Scenario A — the probe times out against an initial
status, leaving `error` / `disconnected` / count unchanged with no stage
run; and a concrete all-success run reaching `"running"` indeed had a
successful probe. -/
theorem probe_timeout_behavior_witness :
    ((lifecycleStart ⟨false, true, true, Except.ok ["x"]⟩
        ⟨"unknown", "disconnected", 0⟩).1.android = "error" ∧
      (lifecycleStart ⟨false, true, true, Except.ok ["x"]⟩
        ⟨"unknown", "disconnected", 0⟩).1.irisBridge = "disconnected" ∧
      (lifecycleStart ⟨false, true, true, Except.ok ["x"]⟩
        ⟨"unknown", "disconnected", 0⟩).1.skillsActive = 0 ∧
      (lifecycleStart ⟨false, true, true, Except.ok ["x"]⟩
        ⟨"unknown", "disconnected", 0⟩).2 = ⟨false, false, false⟩) ∧
    ((⟨true, true, true, Except.ok []⟩ : LifecycleEnv).deviceReady = true ∧
      (⟨true, true, true, Except.ok []⟩ : LifecycleEnv).apkExists = true ∧
      (⟨true, true, true, Except.ok []⟩ : LifecycleEnv).launchOk = true) :=
  ⟨probe_timeout_behavior.1 ⟨false, true, true, Except.ok ["x"]⟩
      ⟨"unknown", "disconnected", 0⟩ rfl,
   probe_timeout_behavior.2 ⟨true, true, true, Except.ok []⟩
      ⟨"unknown", "disconnected", 0⟩ rfl⟩

/-! ## Webhook fan-out: `WebhookManager`
(`src/stend/core/managers/extra_managers.py`)

`add_webhook` / `remove_webhook` mutate the registration list under the
lock; `trigger`\'s background `_send` takes, under the same lock, the
snapshot `current_webhooks = list(self.webhooks)` and posts the payload to
exactly those URLs.  The interleaving of registry operations around the
snapshot is modelled as a sequence of operations; a fan-out's snapshot point
is the position of its `snap` in that sequence, and its deliveries are a
function of the registry contents at that point only. -/

inductive WOp where
  | add (url : String)
  | remove (url : String)
  | snap

/-- Registry mutation: `add_webhook` appends if absent, `remove_webhook`
removes, a snapshot leaves the registry unchanged. -/
def applyOp (st : List String) : WOp → List String
  | WOp.add u => if u ∈ st then st else st ++ [u]
  | WOp.remove u => st.erase u
  | WOp.snap => st

def stateAfter (init : List String) (ops : List WOp) : List String :=
  ops.foldl applyOp init

/-- The deliveries attempted by the fan-out whose snapshot is operation `i`:
`requests.post(url, json=payload)` for each URL of the snapshot. -/
def triggerDeliveries (init : List String) (ops : List WOp) (i : Nat)
    (payload : Json) : List (String × Json) :=
  (stateAfter init (ops.take i)).map (fun u => (u, payload))

/-- C9: a fan-out delivers the payload to exactly the snapshot taken at its
`snap` point: every URL registered at the snapshot receives this call\'s
payload, and a URL not registered at the snapshot never receives it — no
matter what registrations (`post`) happen while the fan-out is in flight. -/
theorem webhook_snapshot_fanout (init : List String) (pre post : List WOp)
    (u : String) (payload : Json) :
    (u ∈ stateAfter init pre →
      (u, payload) ∈ triggerDeliveries init (pre ++ WOp.snap :: post)
        pre.length payload) ∧
    (u ∉ stateAfter init pre →
      ∀ x ∈ triggerDeliveries init (pre ++ WOp.snap :: post) pre.length payload,
        x.1 ≠ u) := by
  have htake : (pre ++ WOp.snap :: post).take pre.length = pre :=
    List.take_left pre (WOp.snap :: post)
  constructor
  · intro h
    rw [triggerDeliveries, htake]
    exact List.mem_map_of_mem _ h
  · intro h x hx
    rw [triggerDeliveries, htake] at hx
    obtain ⟨w, hw, hwx⟩ := List.mem_map.mp hx
    subst hwx
    intro hxu
    exact h (hxu ▸ hw)

/-- C9 witness: `"a"` registered before the snapshot receives the payload;
`"b"` registered only after the snapshot (while the fan-out is pending) does
not. -/
theorem webhook_snapshot_fanout_witness :
    ("a", Json.null) ∈
      triggerDeliveries [] ([WOp.add "a"] ++ WOp.snap :: [WOp.add "b"]) 1 Json.null ∧
    triggerDeliveries [] ([WOp.add "a"] ++ WOp.snap :: [WOp.add "b"]) 1 Json.null =
      [("a", Json.null)] ∧
    ("a" : String) ≠ "b" := by
  have hmem := (webhook_snapshot_fanout [] [WOp.add "a"] [WOp.add "b"] "a" Json.null).1
    (by simp [stateAfter, applyOp])
  have hnb := (webhook_snapshot_fanout [] [WOp.add "a"] [WOp.add "b"] "b" Json.null).2
    (by simp [stateAfter, applyOp]) ("a", Json.null) hmem
  exact ⟨hmem, rfl, hnb⟩

end Stend
